import Mathlib

/-!
Shallow embedding of the pyMP3ID3 repository's ID3v2 tag reader (`id3.py`),
together with theorems checking its natural-language specification.

Byte strings are modelled as `List Nat` (each element a byte value), and the
sequential reads of the `io.BytesIO` stream become explicit `take`/`drop`
state passing.  Code that can raise an exception is modelled with `Option`
(`none` standing for the raised exception).
-/

namespace ID3

/-- Embedding of `unsync` (id3.py line 15-16):
`sum(item << (7 * (len(iterable) - i)) for i, item in enumerate(iterable, start=1))`.
`List.enumFrom 1` mirrors `enumerate(iterable, start=1)`. -/
def unsync (l : List Nat) : Nat :=
  ((l.enumFrom 1).map (fun p => p.2 <<< (7 * (l.length - p.1)))).sum

/-- Spec-side definition, following the claim's words only: the base-128
big-endian value `Σ byte[i] * 128 ^ (N - 1 - i)` of an `N`-byte sequence. -/
def syncSafeSum (l : List Nat) : Nat :=
  ∑ i ∈ Finset.range l.length, l.getD i 0 * 128 ^ (l.length - 1 - i)


/-- Python's `bytes.decode("ISO-8859-1")`: total, each byte becomes the
character with the same code point. -/
def latin1Decode (l : List Nat) : String :=
  String.mk (l.map Char.ofNat)

/-- Strict UTF-8 decoding as performed by CPython's `bytes.decode("utf-8")`:
rejects invalid start bytes (`0x80`-`0xC1`, `0xF5`-`0xFF`), bad continuation
bytes, overlong forms, surrogate code points and values above `0x10FFFF`.
`none` models the raised `UnicodeDecodeError`. -/
def utf8Chars : List Nat → Option (List Char)
  | [] => some []
  | b :: rest =>
    if b < 0x80 then
      (utf8Chars rest).map (fun cs => Char.ofNat b :: cs)
    else if b < 0xC2 then none
    else if b < 0xE0 then
      match rest with
      | b1 :: r =>
        if 0x80 ≤ b1 ∧ b1 < 0xC0 then
          (utf8Chars r).map (fun cs => Char.ofNat ((b - 0xC0) * 0x40 + (b1 - 0x80)) :: cs)
        else none
      | [] => none
    else if b < 0xF0 then
      match rest with
      | b1 :: b2 :: r =>
        if (0x80 ≤ b1 ∧ b1 < 0xC0) ∧ (0x80 ≤ b2 ∧ b2 < 0xC0) ∧
            (0xE1 ≤ b ∨ 0xA0 ≤ b1) ∧ (b ≠ 0xED ∨ b1 < 0xA0) then
          (utf8Chars r).map
            (fun cs => Char.ofNat ((b - 0xE0) * 0x1000 + (b1 - 0x80) * 0x40 + (b2 - 0x80)) :: cs)
        else none
      | _ => none
    else if b < 0xF5 then
      match rest with
      | b1 :: b2 :: b3 :: r =>
        if (0x80 ≤ b1 ∧ b1 < 0xC0) ∧ (0x80 ≤ b2 ∧ b2 < 0xC0) ∧ (0x80 ≤ b3 ∧ b3 < 0xC0) ∧
            (0xF1 ≤ b ∨ 0x90 ≤ b1) ∧ (b ≠ 0xF4 ∨ b1 < 0x90) then
          (utf8Chars r).map
            (fun cs => Char.ofNat ((b - 0xF0) * 0x40000 + (b1 - 0x80) * 0x1000
              + (b2 - 0x80) * 0x40 + (b3 - 0x80)) :: cs)
        else none
      | _ => none
    else none

def utf8Decode (l : List Nat) : Option String :=
  (utf8Chars l).map String.mk

/-- Group a byte list into 16-bit code units; `le = true` takes the first byte
of each pair as the low-order byte.  An odd trailing byte is a decode error
("truncated data" in CPython). -/
def utf16Units (le : Bool) : List Nat → Option (List Nat)
  | [] => some []
  | [_] => none
  | b0 :: b1 :: r =>
    (utf16Units le r).map
      (fun us => (if le then b1 * 256 + b0 else b0 * 256 + b1) :: us)

/-- Combine 16-bit code units into characters, pairing surrogates; an unpaired
surrogate is a decode error, as in CPython's strict UTF-16 codecs. -/
def utf16CharsOfUnits : List Nat → Option (List Char)
  | [] => some []
  | u :: r =>
    if u < 0xD800 ∨ 0xE000 ≤ u then
      (utf16CharsOfUnits r).map (fun cs => Char.ofNat u :: cs)
    else if u < 0xDC00 then
      match r with
      | u2 :: r2 =>
        if 0xDC00 ≤ u2 ∧ u2 < 0xE000 then
          (utf16CharsOfUnits r2).map
            (fun cs => Char.ofNat (0x10000 + (u - 0xD800) * 0x400 + (u2 - 0xDC00)) :: cs)
        else none
      | [] => none
    else none

/-- CPython's `bytes.decode("utf-16le")`. -/
def utf16leDecode (l : List Nat) : Option String :=
  ((utf16Units true l).bind utf16CharsOfUnits).map String.mk

/-- CPython's `bytes.decode("utf-16be")`. -/
def utf16beDecode (l : List Nat) : Option String :=
  ((utf16Units false l).bind utf16CharsOfUnits).map String.mk

/-- CPython's `bytes.decode("utf-16")` on a little-endian host: a leading
byte-order mark selects (and is stripped from) the byte order; without one the
platform's native order - little-endian on the hardware this script targets -
is used. -/
def utf16Decode (l : List Nat) : Option String :=
  match l with
  | 0xFF :: 0xFE :: r => utf16leDecode r
  | 0xFE :: 0xFF :: r => utf16beDecode r
  | _ => utf16leDecode l

/-- A value stored in `ID3Tag.frames`: a decoded `str`, or the raw `bytes`
kept when decoding fails or the encoding byte is not one of 0-3. -/
inductive FrameValue
  | str : String → FrameValue
  | bytes : List Nat → FrameValue
deriving DecidableEq

/-- Embedding of id3.py lines 193-203: given the encoding byte and the
remaining content bytes of a text frame, decode them;
on `UnicodeDecodeError` the code prints `"{frame_id}: {e}"` to the console and
keeps the raw bytes; an encoding byte other than 0-3 silently keeps the raw
bytes.  The second component lists the frame ids printed to the console. -/
def decodeText (fid : List Nat) (enc : Nat) (rest : List Nat) :
    FrameValue × List (List Nat) :=
  if enc = 0 then
    (FrameValue.str (latin1Decode rest), [])
  else if enc = 1 then
    match utf16leDecode rest with
    | some s => (FrameValue.str s, [])
    | none => (FrameValue.bytes rest, [fid])
  else if enc = 2 then
    match utf16Decode rest with
    | some s => (FrameValue.str s, [])
    | none => (FrameValue.bytes rest, [fid])
  else if enc = 3 then
    match utf8Decode rest with
    | some s => (FrameValue.str s, [])
    | none => (FrameValue.bytes rest, [fid])
  else
    (FrameValue.bytes rest, [])

/-- Embedding of id3.py line 192 onwards for a text frame:
`encoding, content = content[0], content[1:]` raises `IndexError` on empty
content (modelled as `none`); otherwise the remaining bytes are decoded. -/
def textFrameStep (fid : List Nat) (content : List Nat) :
    Option (FrameValue × List (List Nat)) :=
  match content with
  | [] => none
  | enc :: rest => some (decodeText fid enc rest)

/-- Python `dict` assignment `m[k] = v`: overwrite the entry when the key is
present, append a new entry otherwise (insertion order preserved). -/
def dictInsert (m : List (String × FrameValue)) (k : String) (v : FrameValue) :
    List (String × FrameValue) :=
  if m.any (fun p => p.1 == k) then
    m.map (fun p => if p.1 = k then (k, v) else p)
  else
    m ++ [(k, v)]

/-- Python `dict` lookup: the value of the (unique) entry with the given key. -/
def dictGet (m : List (String × FrameValue)) (k : String) : Option FrameValue :=
  (m.find? (fun p => p.1 == k)).map Prod.snd

/-- One record of what a single iteration of the frame `while` loop
(id3.py lines 186-206) reads from the stream: the bytes returned for the frame
id, the synchsafe-decoded size, the flag bytes and the content slice. -/
structure RawFrame where
  fid : List Nat
  fsize : Nat
  fflags : List Nat
  content : List Nat
deriving DecidableEq

/-- Result of running the frame loop to completion: the `frames` dict, the
trace `seq` of raw frames read (one per loop iteration), the frame ids printed
to the console on decode errors, and `stop`, the bytes read for the frame id
on the iteration that terminated the loop. -/
structure ParseResult where
  frames : List (String × FrameValue)
  seq : List RawFrame
  logs : List (List Nat)
  stop : List Nat
deriving DecidableEq

/-- Embedding of the frame `while` loop of `ID3Tag.__init__`
(id3.py lines 186-206), reading from the remaining byte list `s`:

    frame_id = f.read(4)
    while frame_id and frame_id != b"\x00\x00\x00\x00":
        size = unsync(f.read(4)); flags = f.read(2); content = f.read(size)
        if frame_id in [b"TIT2", b"TPE1"]: ... decode ...;
            self.frames[frame_id.decode("ISO-8859-1")] = content
        frame_id = f.read(4)

Every iteration consumes at least one byte of `s` (the loop guard requires a
nonempty `frame_id`), so `s.length` bounds the number of iterations; the
explicit `fuel` argument makes the recursion structural, and
`frameLoopAux_fuel_irrel` below shows any fuel above that bound gives the same
result.  `none` models an uncaught `IndexError` from `content[0]`. -/
def frameLoopAux : Nat → List (String × FrameValue) → List RawFrame →
    List (List Nat) → List Nat → Option ParseResult
  | 0, _, _, _, _ => none
  | fuel + 1, frames, seq, logs, s =>
    let fid := s.take 4
    if fid = [] ∨ fid = [0, 0, 0, 0] then
      some ⟨frames, seq, logs, fid⟩
    else
      let s1 := s.drop 4
      let size := unsync (s1.take 4)
      let s2 := s1.drop 4
      let fflags := s2.take 2
      let s3 := s2.drop 2
      let content := s3.take size
      let s4 := s3.drop size
      let fr : RawFrame := ⟨fid, size, fflags, content⟩
      if fid = [84, 73, 84, 50] ∨ fid = [84, 80, 69, 49] then
        match textFrameStep fid content with
        | none => none
        | some (v, lg) =>
          frameLoopAux fuel (dictInsert frames (latin1Decode fid) v)
            (seq ++ [fr]) (logs ++ lg) s4
      else
        frameLoopAux fuel frames (seq ++ [fr]) logs s4

/-- The frame loop run on a tag body. -/
def parseFrames (s : List Nat) : Option ParseResult :=
  frameLoopAux (s.length + 1) [] [] [] s

/-- Embedding of `ID3v2Flags.__init__` (id3.py lines 19-25): bits 7/6/5/4 of
the flags byte. -/
structure ID3v2FlagsS where
  unsynchronisation : Bool
  extended_header : Bool
  experimental_header : Bool
  footer_present : Bool
deriving DecidableEq

def mkFlags (b : Nat) : ID3v2FlagsS :=
  ⟨b &&& (1 <<< 7) != 0, b &&& (1 <<< 6) != 0, b &&& (1 <<< 5) != 0, b &&& (1 <<< 4) != 0⟩

structure ID3v2HeaderS where
  file_identifier : List Nat
  versionMajor : Nat
  versionMinor : Nat
  flags : ID3v2FlagsS
  hsize : Nat
deriving DecidableEq

/-- Embedding of `ID3v2Header.__init__` (id3.py lines 96-102).  It indexes
`header[3]`, `header[4]` and `header[5]`, so an input shorter than 6 bytes
raises `IndexError` (modelled as `none`); it performs no identifier check and
no 10-byte length check; `header[6:10]` silently shortens. -/
def mkHeader (header : List Nat) : Option ID3v2HeaderS :=
  if 5 < header.length then
    some ⟨header.take 3, header.getD 3 0, header.getD 4 0, mkFlags (header.getD 5 0),
      unsync ((header.drop 6).take 4)⟩
  else none

/-- Embedding of the extended-header branch of `ID3Tag.__init__`
(id3.py lines 182-184) together with `ID3v2ExtendedHeader.__init__`
(lines 119-136).  The code reads a 4-byte synchsafe size, then calls
`f.read(self.extended_header_size)` - but `self.extended_header_size` is the
initial value `0` set on line 170 and never updated, so the slice passed to
`ID3v2ExtendedHeader` is always empty and `extended_header[0]` (line 124)
always raises `IndexError` (modelled as `none`). -/
def parseExtHeader (s : List Nat) : Option (Nat × List Nat) :=
  let size := unsync (s.take 4)
  let s1 := s.drop 4
  let data := s1.take 0
  match data with
  | [] => none
  | nfb :: _ => some (size + nfb * 0, s1)

structure TagResult where
  header : ID3v2HeaderS
  result : ParseResult
deriving DecidableEq

/-- Embedding of `ID3Tag.__init__` (id3.py lines 160-206): read the first 10
bytes as the header, read `header.size` further bytes as the tag body, parse
the extended header when its flag is set (which always raises, see
`parseExtHeader`), then run the frame loop on the remaining body. -/
def parseTag (file : List Nat) : Option TagResult :=
  match mkHeader (file.take 10) with
  | none => none
  | some hdr =>
    let tag := (file.drop 10).take hdr.hsize
    if hdr.flags.extended_header then
      match parseExtHeader tag with
      | none => none
      | some (_, rest) =>
        match parseFrames rest with
        | none => none
        | some r => some ⟨hdr, r⟩
    else
      match parseFrames tag with
      | none => none
      | some r => some ⟨hdr, r⟩

/-- Modelled from the spec: the accessors `title`/`artist`/`album` that
`id3_editor.updateSong` (id3_editor.py lines 40-42) reads from a parsed tag
are not defined in the source files present in this repository snapshot.
Following section 4.6 of the spec, `title` looks up "TIT2" in the frames
mapping and falls back to the externally supplied display name when that
frame is absent. -/
def title (frames : List (String × FrameValue)) (display : String) : FrameValue :=
  (dictGet frames "TIT2").getD (FrameValue.str display)

/-- Modelled from the spec: `artist` looks up "TPE1", falling back to the
supplied display name (see `title`). -/
def artist (frames : List (String × FrameValue)) (display : String) : FrameValue :=
  (dictGet frames "TPE1").getD (FrameValue.str display)

/-- Modelled from the spec: `album` looks up "TALB", falling back to the
supplied display name (see `title`). -/
def album (frames : List (String × FrameValue)) (display : String) : FrameValue :=
  (dictGet frames "TALB").getD (FrameValue.str display)
theorem enumFrom_map_shift (f : Nat → Nat → Nat) :
    ∀ (l : List Nat) (n : Nat),
      ((l.enumFrom (n + 1)).map (fun p => f p.1 p.2))
        = ((l.enumFrom n).map (fun p => f (p.1 + 1) p.2))
  | [], _ => rfl
  | b :: t, n => by
    simp only [List.enumFrom, List.map_cons]
    exact congrArg _ (enumFrom_map_shift f t (n + 1))

theorem unsync_cons (b : Nat) (l : List Nat) :
    unsync (b :: l) = b * 128 ^ l.length + unsync l := by
  simp only [unsync, List.enumFrom, List.map_cons, List.sum_cons, List.length_cons]
  have h1 : (b :: l).length - 1 = l.length := by simp
  have h2 : ((l.enumFrom 2).map (fun p => p.2 <<< (7 * (l.length + 1 - p.1))))
      = ((l.enumFrom 1).map (fun p => p.2 <<< (7 * (l.length - p.1)))) := by
    have := enumFrom_map_shift (fun i a => a <<< (7 * (l.length + 1 - i))) l 1
    rw [this]
    apply List.map_congr_left
    intro p _
    have : l.length + 1 - (p.1 + 1) = l.length - p.1 := by omega
    rw [this]
  simp only [List.length_cons] at h2 ⊢
  rw [show l.length + 1 - 1 = l.length by omega]
  rw [h2, Nat.shiftLeft_eq, show (2 : Nat) ^ (7 * l.length) = 128 ^ l.length by
    rw [pow_mul]; norm_num]

theorem unsync_nil : unsync [] = 0 := rfl

theorem unsync_eq_syncSafeSum (l : List Nat) : unsync l = syncSafeSum l := by
  induction l with
  | nil => rfl
  | cons b t ih =>
    rw [unsync_cons, ih]
    simp only [syncSafeSum, List.length_cons]
    rw [Finset.sum_range_succ']
    have h0 : (b :: t).getD 0 0 * 128 ^ (t.length + 1 - 1 - 0) = b * 128 ^ t.length := by
      simp
    rw [h0]
    have hterm : ∀ i, (b :: t).getD (i + 1) 0 * 128 ^ (t.length + 1 - 1 - (i + 1))
        = t.getD i 0 * 128 ^ (t.length - 1 - i) := by
      intro i
      simp only [List.getD_cons_succ]
      congr 1
      congr 1
      omega
    rw [Finset.sum_congr rfl (fun i _ => hterm i)]
    omega

theorem unsync_lt (l : List Nat) (h : ∀ b ∈ l, b < 128) :
    unsync l < 128 ^ l.length := by
  induction l with
  | nil => simp [unsync_nil]
  | cons b t ih =>
    rw [unsync_cons]
    have hb : b < 128 := h b (List.mem_cons_self b t)
    have ht : unsync t < 128 ^ t.length := ih (fun x hx => h x (List.mem_cons_of_mem b hx))
    have : b * 128 ^ t.length + unsync t < (b + 1) * 128 ^ t.length := by
      have hp : 0 < (128 : Nat) ^ t.length := pow_pos (by norm_num) t.length
      nlinarith
    calc b * 128 ^ t.length + unsync t < (b + 1) * 128 ^ t.length := this
      _ ≤ 128 * 128 ^ t.length := Nat.mul_le_mul_right _ hb
      _ = 128 ^ (b :: t).length := by rw [List.length_cons, pow_succ]; ring

theorem unsync_injective : ∀ (l1 l2 : List Nat), l1.length = l2.length →
    (∀ b ∈ l1, b < 128) → (∀ b ∈ l2, b < 128) →
    unsync l1 = unsync l2 → l1 = l2 := by
  intro l1
  induction l1 with
  | nil =>
    intro l2 hlen _ _ _
    cases l2 with
    | nil => rfl
    | cons b t => simp at hlen
  | cons b1 t1 ih =>
    intro l2 hlen hb1 hb2 heq
    cases l2 with
    | nil => simp at hlen
    | cons b2 t2 =>
      simp only [List.length_cons, Nat.succ_inj] at hlen
      rw [unsync_cons, unsync_cons, hlen] at heq
      have hu1 : unsync t1 < 128 ^ t2.length := by
        rw [← hlen]
        exact unsync_lt t1 (fun x hx => hb1 x (List.mem_cons_of_mem _ hx))
      have hu2 : unsync t2 < 128 ^ t2.length := by
        exact unsync_lt t2 (fun x hx => hb2 x (List.mem_cons_of_mem _ hx))
      have hbeq : b1 = b2 := by
        rcases Nat.lt_trichotomy b1 b2 with hlt | heqb | hgt
        · exfalso
          have : b1 * 128 ^ t2.length + unsync t1 < b2 * 128 ^ t2.length + unsync t2 := by
            have h1 : b1 * 128 ^ t2.length + unsync t1 < (b1 + 1) * 128 ^ t2.length := by
              nlinarith
            have h2 : (b1 + 1) * 128 ^ t2.length ≤ b2 * 128 ^ t2.length :=
              Nat.mul_le_mul_right _ hlt
            omega
          omega
        · exact heqb
        · exfalso
          have : b2 * 128 ^ t2.length + unsync t2 < b1 * 128 ^ t2.length + unsync t1 := by
            have h1 : b2 * 128 ^ t2.length + unsync t2 < (b2 + 1) * 128 ^ t2.length := by
              nlinarith
            have h2 : (b2 + 1) * 128 ^ t2.length ≤ b1 * 128 ^ t2.length :=
              Nat.mul_le_mul_right _ hgt
            omega
          omega
      subst hbeq
      have : unsync t1 = unsync t2 := by omega
      rw [ih t2 hlen (fun x hx => hb1 x (List.mem_cons_of_mem _ hx))
        (fun x hx => hb2 x (List.mem_cons_of_mem _ hx)) this]


theorem mem_dictInsert (m : List (String × FrameValue)) (k : String) (v : FrameValue)
    (kv : String × FrameValue) (h : kv ∈ dictInsert m k v) : kv ∈ m ∨ kv.1 = k := by
  unfold dictInsert at h
  split at h
  · obtain ⟨p, hp, hpe⟩ := List.mem_map.mp h
    by_cases hpk : p.1 = k
    · rw [if_pos hpk] at hpe
      right
      rw [← hpe]
    · rw [if_neg hpk] at hpe
      left
      rw [← hpe]
      exact hp
  · rcases List.mem_append.mp h with h1 | h2
    · exact Or.inl h1
    · right
      have : kv = (k, v) := List.mem_singleton.mp h2
      rw [this]

theorem dictGet_map_overwrite (k : String) (v : FrameValue) :
    ∀ (m : List (String × FrameValue)), m.any (fun q => q.1 == k) = true →
      dictGet (m.map (fun p => if p.1 = k then (k, v) else p)) k = some v := by
  intro m
  induction m with
  | nil => intro h; simp at h
  | cons p t ih =>
    intro h
    by_cases hpk : p.1 = k
    · simp only [List.map_cons, if_pos hpk, dictGet]
      rw [List.find?_cons_of_pos _ (by simp)]
      rfl
    · simp only [List.map_cons, if_neg hpk, dictGet]
      rw [List.find?_cons_of_neg _ (by simp [hpk])]
      have hany : t.any (fun q => q.1 == k) = true := by
        simp only [List.any_cons] at h
        rcases Bool.or_eq_true_iff.mp h with h1 | h1
        · exact absurd (by simpa using h1) hpk
        · exact h1
      exact ih hany

theorem dictGet_append_new (k : String) (v : FrameValue) :
    ∀ (m : List (String × FrameValue)), m.any (fun q => q.1 == k) = false →
      dictGet (m ++ [(k, v)]) k = some v := by
  intro m
  induction m with
  | nil => simp [dictGet]
  | cons p t ih =>
    intro h
    simp only [List.any_cons, Bool.or_eq_false_iff] at h
    simp only [List.cons_append, dictGet]
    rw [List.find?_cons_of_neg _ (by simp [h.1])]
    exact ih (by simp [h.2])

/-- Python dict semantics: assignment followed by lookup of the same key
returns the assigned value (last write wins). -/
theorem dictGet_dictInsert (m : List (String × FrameValue)) (k : String) (v : FrameValue) :
    dictGet (dictInsert m k v) k = some v := by
  unfold dictInsert
  cases hany : m.any (fun q => q.1 == k) with
  | true =>
    rw [if_pos rfl]
    exact dictGet_map_overwrite k v m hany
  | false =>
    rw [if_neg (by simp)]
    exact dictGet_append_new k v m hany

theorem textFrameStep_some_ne (fid content : List Nat) (x : FrameValue × List (List Nat))
    (h : textFrameStep fid content = some x) : content ≠ [] := by
  cases content with
  | nil => simp [textFrameStep] at h
  | cons a t => exact List.cons_ne_nil a t

/-- Loop invariant for the frame `while` loop: a successful run stops only on
an empty or all-zero frame id, only adds "TIT2"/"TPE1" keys to the frames
dict, and every recorded iteration read a frame id that was neither empty nor
all-zero, with nonempty content whenever the id was a text-frame id. -/
theorem frameLoopAux_inv : ∀ (fuel : Nat) (frames : List (String × FrameValue))
    (seq : List RawFrame) (logs : List (List Nat)) (s : List Nat) (r : ParseResult),
    frameLoopAux fuel frames seq logs s = some r →
    (r.stop = [] ∨ r.stop = [0, 0, 0, 0]) ∧
    (∀ kv ∈ r.frames, kv ∈ frames ∨ kv.1 = "TIT2" ∨ kv.1 = "TPE1") ∧
    (∀ fr ∈ r.seq, fr ∈ seq ∨
      (fr.fid ≠ [] ∧ fr.fid ≠ [0, 0, 0, 0] ∧
        ((fr.fid = [84, 73, 84, 50] ∨ fr.fid = [84, 80, 69, 49]) → fr.content ≠ []))) := by
  intro fuel
  induction fuel with
  | zero =>
    intro frames seq logs s r h
    simp [frameLoopAux] at h
  | succ n ih =>
    intro frames seq logs s r h
    simp only [frameLoopAux] at h
    by_cases hstop : s.take 4 = [] ∨ s.take 4 = [0, 0, 0, 0]
    · rw [if_pos hstop] at h
      have hr := Option.some.inj h
      subst hr
      exact ⟨hstop, fun kv hkv => Or.inl hkv, fun fr hfr => Or.inl hfr⟩
    · rw [if_neg hstop] at h
      push_neg at hstop
      by_cases htext : s.take 4 = [84, 73, 84, 50] ∨ s.take 4 = [84, 80, 69, 49]
      · rw [if_pos htext] at h
        split at h
        · exact absurd h (by simp)
        · rename_i v lg heq
          obtain ⟨h1, h2, h3⟩ := ih _ _ _ _ _ h
          refine ⟨h1, ?_, ?_⟩
          · intro kv hkv
            rcases h2 kv hkv with hin | hk
            · rcases mem_dictInsert _ _ _ _ hin with hm | hkey
              · exact Or.inl hm
              · rcases htext with ht | ht
                · exact Or.inr (Or.inl (by rw [hkey, ht]; decide))
                · exact Or.inr (Or.inr (by rw [hkey, ht]; decide))
            · exact Or.inr hk
          · intro fr hfr
            rcases h3 fr hfr with hin | hprop
            · rcases List.mem_append.mp hin with hs | hnew
              · exact Or.inl hs
              · have hfr2 := List.mem_singleton.mp hnew
                subst hfr2
                exact Or.inr ⟨hstop.1, hstop.2,
                  fun _ => textFrameStep_some_ne _ _ _ heq⟩
            · exact Or.inr hprop
      · rw [if_neg htext] at h
        obtain ⟨h1, h2, h3⟩ := ih _ _ _ _ _ h
        refine ⟨h1, h2, ?_⟩
        intro fr hfr
        rcases h3 fr hfr with hin | hprop
        · rcases List.mem_append.mp hin with hs | hnew
          · exact Or.inl hs
          · have hfr2 := List.mem_singleton.mp hnew
            subst hfr2
            exact Or.inr ⟨hstop.1, hstop.2, fun habs => absurd habs htext⟩
        · exact Or.inr hprop

/-- The fuel argument of `frameLoopAux` is irrelevant as long as it exceeds
the length of the remaining stream, which bounds the number of loop
iterations; so `parseFrames`'s choice `s.length + 1` is canonical. -/
theorem frameLoopAux_fuel_irrel : ∀ (f1 f2 : Nat) (frames : List (String × FrameValue))
    (seq : List RawFrame) (logs : List (List Nat)) (s : List Nat),
    s.length < f1 → s.length < f2 →
    frameLoopAux f1 frames seq logs s = frameLoopAux f2 frames seq logs s := by
  intro f1
  induction f1 with
  | zero => intro f2 frames seq logs s h1 h2; omega
  | succ n ih =>
    intro f2 frames seq logs s h1 h2
    cases f2 with
    | zero => omega
    | succ m =>
      simp only [frameLoopAux]
      by_cases hstop : s.take 4 = [] ∨ s.take 4 = [0, 0, 0, 0]
      · rw [if_pos hstop, if_pos hstop]
      · rw [if_neg hstop, if_neg hstop]
        have hs : s ≠ [] := by
          intro he
          subst he
          simp at hstop
        have hlen : 0 < s.length := List.length_pos.mpr hs
        have hdrop : ∀ k : Nat,
            ((((s.drop 4).drop 4).drop 2).drop k).length < n ∧
            ((((s.drop 4).drop 4).drop 2).drop k).length < m := by
          intro k
          simp only [List.length_drop]
          omega
        by_cases htext : s.take 4 = [84, 73, 84, 50] ∨ s.take 4 = [84, 80, 69, 49]
        · rw [if_pos htext, if_pos htext]
          split
          · rfl
          · exact ih m _ _ _ _ (hdrop _).1 (hdrop _).2
        · rw [if_neg htext, if_neg htext]
          exact ih m _ _ _ _ (hdrop _).1 (hdrop _).2

theorem frameLoopAux_eq_parseFrames (f : Nat) (s : List Nat) (h : s.length < f) :
    frameLoopAux f [] [] [] s = parseFrames s :=
  frameLoopAux_fuel_irrel f (s.length + 1) [] [] [] s h (by omega)

/-- C4: for every fixed-length byte sequence, `unsync` returns the base-128
big-endian value Σ byte[i]·128^(N-1-i) (the below-128 restriction is not even
needed for the formula); on sequences of a common length whose bytes are all
below 128 it is injective; and it maps [0x00, 0x00, 0x02, 0x01] to 257. -/
theorem unsync_base128_injective :
    (∀ l : List Nat, unsync l = syncSafeSum l) ∧
    (∀ l1 l2 : List Nat, l1.length = l2.length → (∀ b ∈ l1, b < 128) →
      (∀ b ∈ l2, b < 128) → unsync l1 = unsync l2 → l1 = l2) ∧
    unsync [0, 0, 2, 1] = 257 :=
  ⟨unsync_eq_syncSafeSum, unsync_injective, by decide⟩

/-- C4 witness: the theorem applied at the concrete sequence
[0x00, 0x00, 0x02, 0x01], discharging the below-128 hypotheses there. -/
theorem unsync_base128_injective_witness :
    unsync [0, 0, 2, 1] = syncSafeSum [0, 0, 2, 1] ∧ [0, 0, 2, 1] = [0, 0, 2, 1] :=
  ⟨unsync_base128_injective.1 [0, 0, 2, 1],
    unsync_base128_injective.2.1 [0, 0, 2, 1] [0, 0, 2, 1] rfl
      (by decide) (by decide) rfl⟩

/-- C1 counterexample: a tag body holding one "TALB" frame (content
`[0x00, 0x41]`) followed by zero padding.  The identifier "TALB" is
encountered in the stream - the loop iterates over it, as recorded in the
trace - but the resulting mapping is empty: no raw-bytes value is assigned,
refuting "assigns every frame identifier encountered in the stream a value". -/
theorem talb_frame_not_stored :
    parseFrames [84, 65, 76, 66, 0, 0, 0, 2, 0, 0, 0, 65, 0, 0, 0, 0] =
      some ⟨[], [⟨[84, 65, 76, 66], 2, [0, 0], [0, 65]⟩], [], [0, 0, 0, 0]⟩ := by
  decide

/-- C1 (amended): the mapping only ever receives entries for the identifiers
"TIT2" and "TPE1" (the decoded string, or the raw remaining bytes when
decoding fails or the encoding byte is unrecognized); every other frame is
skipped without an entry; and among stored frames a repeated identifier's
later occurrence overwrites the earlier one (last-write-wins), shown both for
the dict operation and for a body with two "TIT2" frames ("A" then "B"). -/
theorem frames_map_text_only_lww :
    (∀ (s : List Nat) (r : ParseResult), parseFrames s = some r →
      ∀ kv ∈ r.frames, kv.1 = "TIT2" ∨ kv.1 = "TPE1") ∧
    (∀ (m : List (String × FrameValue)) (k : String) (v : FrameValue),
      dictGet (dictInsert m k v) k = some v) ∧
    parseFrames [84, 73, 84, 50, 0, 0, 0, 2, 0, 0, 0, 65,
        84, 73, 84, 50, 0, 0, 0, 2, 0, 0, 0, 66, 0, 0, 0, 0] =
      some ⟨[("TIT2", FrameValue.str "B")],
        [⟨[84, 73, 84, 50], 2, [0, 0], [0, 65]⟩,
         ⟨[84, 73, 84, 50], 2, [0, 0], [0, 66]⟩], [], [0, 0, 0, 0]⟩ := by
  refine ⟨?_, fun m k v => dictGet_dictInsert m k v, by decide⟩
  intro s r h kv hkv
  unfold parseFrames at h
  rcases (frameLoopAux_inv _ _ _ _ _ _ h).2.1 kv hkv with hin | hk
  · exact absurd hin (List.not_mem_nil kv)
  · exact hk

/-- C1 witness: the amended theorem applied to the two-"TIT2" body and its
stored entry, discharging the parse and membership hypotheses there. -/
theorem frames_map_text_only_lww_witness :
    ("TIT2", FrameValue.str "B").1 = "TIT2" ∨ ("TIT2", FrameValue.str "B").1 = "TPE1" :=
  frames_map_text_only_lww.1
    [84, 73, 84, 50, 0, 0, 0, 2, 0, 0, 0, 65,
     84, 73, 84, 50, 0, 0, 0, 2, 0, 0, 0, 66, 0, 0, 0, 0]
    ⟨[("TIT2", FrameValue.str "B")],
      [⟨[84, 73, 84, 50], 2, [0, 0], [0, 65]⟩,
       ⟨[84, 73, 84, 50], 2, [0, 0], [0, 66]⟩], [], [0, 0, 0, 0]⟩
    (by decide) ("TIT2", FrameValue.str "B") (by decide)

/-- C2 counterexample: two concrete bodies refute the claim as stated.
With body [0x41, 0x42] only 2 bytes remain for the identifier - by the claim
the sequence must end there, yet the loop performs one further iteration and
records a frame with the short id.  And the body holding one "TIT2" frame of
declared size 0 makes the parse raise (IndexError on `content[0]`), refuting
"ends without error" for every body. -/
theorem frame_loop_termination_counterexample :
    parseFrames [65, 66] = some ⟨[], [⟨[65, 66], 0, [], []⟩], [], []⟩ ∧
    parseFrames [84, 73, 84, 50, 0, 0, 0, 0, 0, 0] = none := by
  decide

/-- C2 (amended): for every tag body, a run of the frame loop that completes
without error ends exactly when the bytes read for the identifier are empty
(nothing remained) or are the four zero padding bytes - every recorded
iteration read an identifier that was neither - and completion without error
is guaranteed only when every "TIT2"/"TPE1" frame has nonempty content; in
particular the body with one "TIT2" frame of synchsafe size 6 and content
`[0x00]+"Hello"` followed by 4 zero bytes yields exactly one frame decoding
"Hello". -/
theorem frame_loop_termination :
    (∀ (s : List Nat) (r : ParseResult), parseFrames s = some r →
      r.stop = [] ∨ r.stop = [0, 0, 0, 0]) ∧
    (∀ (s : List Nat) (r : ParseResult), parseFrames s = some r →
      ∀ fr ∈ r.seq, fr.fid ≠ [] ∧ fr.fid ≠ [0, 0, 0, 0]) ∧
    parseFrames [84, 73, 84, 50, 0, 0, 0, 6, 0, 0, 0, 72, 101, 108, 108, 111,
        0, 0, 0, 0] =
      some ⟨[("TIT2", FrameValue.str "Hello")],
        [⟨[84, 73, 84, 50], 6, [0, 0], [0, 72, 101, 108, 108, 111]⟩],
        [], [0, 0, 0, 0]⟩ := by
  refine ⟨?_, ?_, by decide⟩
  · intro s r h
    unfold parseFrames at h
    exact (frameLoopAux_inv _ _ _ _ _ _ h).1
  · intro s r h fr hfr
    unfold parseFrames at h
    rcases (frameLoopAux_inv _ _ _ _ _ _ h).2.2 fr hfr with hin | hprop
    · exact absurd hin (List.not_mem_nil fr)
    · exact ⟨hprop.1, hprop.2.1⟩

/-- C2 witness: the amended theorem applied to the "Hello" body, discharging
the parse hypothesis there. -/
theorem frame_loop_termination_witness :
    (⟨[("TIT2", FrameValue.str "Hello")],
      [⟨[84, 73, 84, 50], 6, [0, 0], [0, 72, 101, 108, 108, 111]⟩],
      [], [0, 0, 0, 0]⟩ : ParseResult).stop = [] ∨
    (⟨[("TIT2", FrameValue.str "Hello")],
      [⟨[84, 73, 84, 50], 6, [0, 0], [0, 72, 101, 108, 108, 111]⟩],
      [], [0, 0, 0, 0]⟩ : ParseResult).stop = [0, 0, 0, 0] :=
  frame_loop_termination.1
    [84, 73, 84, 50, 0, 0, 0, 6, 0, 0, 0, 72, 101, 108, 108, 111, 0, 0, 0, 0]
    ⟨[("TIT2", FrameValue.str "Hello")],
      [⟨[84, 73, 84, 50], 6, [0, 0], [0, 72, 101, 108, 108, 111]⟩],
      [], [0, 0, 0, 0]⟩ (by decide)

/-- C3 counterexample: a "TIT2" frame whose content starts with the leading
byte 4 (not one of 0-3).  No UnknownEncoding condition arises: the frame's
remaining bytes are silently stored raw in the mapping and nothing is logged,
refuting "any other leading byte is an UnknownEncoding condition". -/
theorem unknown_encoding_not_reported :
    decodeText [84, 73, 84, 50] 4 [65] = (FrameValue.bytes [65], []) ∧
    parseFrames [84, 73, 84, 50, 0, 0, 0, 2, 0, 0, 4, 65] =
      some ⟨[("TIT2", FrameValue.bytes [65])],
        [⟨[84, 73, 84, 50], 2, [0, 0], [4, 65]⟩], [], []⟩ := by
  decide

/-- C3 (amended): the first content byte selects the decoding scheme applied
to the remaining bytes - 0 decodes them as single-byte Latin-1, 1 as 16-bit
code units in little-endian order (a byte-order mark is decoded, not
stripped), 2 via the byte-order-mark-sensitive UTF-16 codec (big-endian only
when a big-endian mark leads; the host's little-endian order otherwise), 3 as
UTF-8 - and any other leading byte silently stores the remaining bytes raw,
with no UnknownEncoding condition.  The concrete cases pin the byte orders:
`[0x41, 0x00]` under 1 is "A", a big-endian mark followed by `[0x01, 0x02]`
under 2 is U+0102, and `[0xC3, 0xA9]` under 3 is U+00E9. -/
theorem text_encoding_dispatch :
    (∀ fid rest, decodeText fid 0 rest = (FrameValue.str (latin1Decode rest), [])) ∧
    (∀ fid rest s, utf16leDecode rest = some s →
      decodeText fid 1 rest = (FrameValue.str s, [])) ∧
    (∀ fid rest s, utf16Decode rest = some s →
      decodeText fid 2 rest = (FrameValue.str s, [])) ∧
    (∀ fid rest s, utf8Decode rest = some s →
      decodeText fid 3 rest = (FrameValue.str s, [])) ∧
    (∀ fid e rest, 4 ≤ e → decodeText fid e rest = (FrameValue.bytes rest, [])) ∧
    decodeText [84, 73, 84, 50] 1 [65, 0] = (FrameValue.str "A", []) ∧
    decodeText [84, 73, 84, 50] 2 [254, 255, 1, 2] =
      (FrameValue.str (String.mk [Char.ofNat 258]), []) ∧
    decodeText [84, 73, 84, 50] 3 [195, 169] =
      (FrameValue.str (String.mk [Char.ofNat 233]), []) := by
  refine ⟨fun fid rest => rfl, ?_, ?_, ?_, ?_, by decide, by decide, by decide⟩
  · intro fid rest s h
    simp [decodeText, h]
  · intro fid rest s h
    simp [decodeText, h]
  · intro fid rest s h
    simp [decodeText, h]
  · intro fid e rest he
    simp only [decodeText]
    rw [if_neg (by omega), if_neg (by omega), if_neg (by omega), if_neg (by omega)]

/-- C3 witness: the amended theorem's little-endian conjunct applied at the
concrete bytes [0x41, 0x00], discharging the successful-decode hypothesis. -/
theorem text_encoding_dispatch_witness :
    decodeText [1] 1 [65, 0] = (FrameValue.str "A", []) :=
  text_encoding_dispatch.2.1 [1] [65, 0] "A" (by decide)

/-- C5: code-bug evidence.  A body holding one good "TIT2" frame followed by
a "TALB" frame declaring content size 99 with only 2 bytes remaining: the
loop stores the short 2-byte slice as that frame's content, terminates
normally (stop = [] - the stream simply ran out), reports nothing, and the
prior decoded frame stays intact.  No TruncatedFrame condition exists
anywhere in the code. -/
theorem truncated_frame_short_slice :
    parseFrames ([84, 73, 84, 50, 0, 0, 0, 6, 0, 0, 0, 72, 101, 108, 108, 111]
        ++ [84, 65, 76, 66, 0, 0, 0, 99, 0, 0, 1, 2]) =
      some ⟨[("TIT2", FrameValue.str "Hello")],
        [⟨[84, 73, 84, 50], 6, [0, 0], [0, 72, 101, 108, 108, 111]⟩,
         ⟨[84, 65, 76, 66], 99, [0, 0], [1, 2]⟩], [], []⟩ := by
  decide

/-- C6: code-bug evidence.  `ID3v2Header.__init__` accepts the 10-byte buffer
starting "XYZ" - an identifier different from "ID3" - and parses it into
fields instead of reporting NotAnId3Tag, and accepts a 7-byte buffer instead
of reporting TruncatedHeader. -/
theorem header_no_validation :
    mkHeader [88, 89, 90, 4, 0, 0, 0, 0, 2, 1] =
      some ⟨[88, 89, 90], 4, 0, ⟨false, false, false, false⟩, 257⟩ ∧
    (mkHeader [73, 68, 51, 4, 0, 0, 0]).isSome = true := by
  decide

/-- C7: code-bug evidence.  The extended-header path never reads the
flag-byte count, extended flags or CRC: `f.read(self.extended_header_size)`
reads zero bytes (the attribute keeps its initial value 0), so
`extended_header[0]` raises IndexError on every input stream, and a tag whose
header sets the extended-header flag fails to parse. -/
theorem extended_header_always_fails :
    (∀ s : List Nat, parseExtHeader s = none) ∧
    parseTag ([73, 68, 51, 4, 0, 64, 0, 0, 0, 20] ++ [0, 0, 0, 6, 1, 0]
      ++ List.replicate 14 0) = none :=
  ⟨fun s => rfl, by decide⟩

/-- C8 counterexample: a "TIT2" frame with content `[0x03, 0xFF]` - encoding
byte 3 (UTF-8) with the malformed byte 0xFF.  Parsing continues, but the
frame's value becomes the raw bytes `[0xFF]`, not an error marker carrying
the cause, and the frame id is printed to the console (the logs list is
nonempty), refuting "the core never prints or logs to a user-facing
console". -/
theorem decode_failure_prints_and_keeps_bytes :
    parseFrames [84, 73, 84, 50, 0, 0, 0, 2, 0, 0, 3, 255] =
      some ⟨[("TIT2", FrameValue.bytes [255])],
        [⟨[84, 73, 84, 50], 2, [0, 0], [3, 255]⟩],
        [[84, 73, 84, 50]], []⟩ := by
  decide

/-- C8 (amended): a malformed byte sequence for the selected encoding is
non-fatal: the frame's value stays the raw content bytes (after the encoding
byte), a line carrying the frame id is printed to the console, and parsing
continues with the next frame - shown concretely by a malformed "TIT2" frame
followed by a "TPE1" frame that still decodes. -/
theorem decode_failure_nonfatal :
    (∀ (fid rest : List Nat), utf8Decode rest = none →
      decodeText fid 3 rest = (FrameValue.bytes rest, [fid])) ∧
    parseFrames [84, 73, 84, 50, 0, 0, 0, 2, 0, 0, 3, 255,
        84, 80, 69, 49, 0, 0, 0, 2, 0, 0, 0, 65, 0, 0, 0, 0] =
      some ⟨[("TIT2", FrameValue.bytes [255]), ("TPE1", FrameValue.str "A")],
        [⟨[84, 73, 84, 50], 2, [0, 0], [3, 255]⟩,
         ⟨[84, 80, 69, 49], 2, [0, 0], [0, 65]⟩],
        [[84, 73, 84, 50]], [0, 0, 0, 0]⟩ := by
  refine ⟨?_, by decide⟩
  intro fid rest h
  simp [decodeText, h]

/-- C8 witness: the amended theorem applied at the malformed UTF-8 byte
0xFF, discharging the failed-decode hypothesis there. -/
theorem decode_failure_nonfatal_witness :
    decodeText [2] 3 [255] = (FrameValue.bytes [255], [[2]]) :=
  decode_failure_nonfatal.1 [2] [255] (by decide)

/-- C9 (spec-modelled): the derived accessors `title`, `artist` and `album`
look up "TIT2", "TPE1" and "TALB" respectively in the parsed mapping, and
whenever the corresponding frame is absent they return the externally
supplied display name instead of raising. -/
theorem accessors_fallback :
    (∀ (m : List (String × FrameValue)) (d : String),
      dictGet m "TIT2" = none → title m d = FrameValue.str d) ∧
    (∀ (m : List (String × FrameValue)) (d : String) (v : FrameValue),
      dictGet m "TIT2" = some v → title m d = v) ∧
    (∀ (m : List (String × FrameValue)) (d : String),
      dictGet m "TPE1" = none → artist m d = FrameValue.str d) ∧
    (∀ (m : List (String × FrameValue)) (d : String) (v : FrameValue),
      dictGet m "TPE1" = some v → artist m d = v) ∧
    (∀ (m : List (String × FrameValue)) (d : String),
      dictGet m "TALB" = none → album m d = FrameValue.str d) ∧
    (∀ (m : List (String × FrameValue)) (d : String) (v : FrameValue),
      dictGet m "TALB" = some v → album m d = v) :=
  ⟨fun m d h => by simp [title, h], fun m d v h => by simp [title, h],
   fun m d h => by simp [artist, h], fun m d v h => by simp [artist, h],
   fun m d h => by simp [album, h], fun m d v h => by simp [album, h]⟩

/-- C9 witness: the accessors applied to an empty mapping with the display
name "song.mp3", discharging the absence hypotheses there. -/
theorem accessors_fallback_witness :
    title [] "song.mp3" = FrameValue.str "song.mp3" ∧
    artist [] "song.mp3" = FrameValue.str "song.mp3" ∧
    album [] "song.mp3" = FrameValue.str "song.mp3" :=
  ⟨accessors_fallback.1 [] "song.mp3" (by decide),
   accessors_fallback.2.2.1 [] "song.mp3" (by decide),
   accessors_fallback.2.2.2.2.1 [] "song.mp3" (by decide)⟩

/-- C10: the step handling a text frame's content is defined exactly when
that content is nonempty (the code unconditionally reads `content[0]` as the
encoding selector); every text frame recorded by a completed parse has
nonempty content (non-emptiness is a necessary condition for totality); and a
"TPE1" frame of declared content size 0 makes the whole parse undefined. -/
theorem text_frame_needs_content :
    (∀ (fid content : List Nat), (textFrameStep fid content).isSome ↔ content ≠ []) ∧
    (∀ (s : List Nat) (r : ParseResult), parseFrames s = some r →
      ∀ fr ∈ r.seq, (fr.fid = [84, 73, 84, 50] ∨ fr.fid = [84, 80, 69, 49]) →
        fr.content ≠ []) ∧
    parseFrames [84, 80, 69, 49, 0, 0, 0, 0, 0, 0] = none := by
  refine ⟨?_, ?_, by decide⟩
  · intro fid content
    cases content <;> simp [textFrameStep]
  · intro s r h fr hfr htext
    unfold parseFrames at h
    rcases (frameLoopAux_inv _ _ _ _ _ _ h).2.2 fr hfr with hin | hprop
    · exact absurd hin (List.not_mem_nil fr)
    · exact hprop.2.2 htext

/-- C10 witness: the theorem applied to a body holding one "TPE1" frame with
the nonempty content [0x00, 0x41], discharging the parse, membership and
text-id hypotheses there. -/
theorem text_frame_needs_content_witness :
    ((textFrameStep [84, 80, 69, 49] [0]).isSome ↔ ([0] : List Nat) ≠ []) ∧
    (⟨[84, 80, 69, 49], 2, [0, 0], [0, 65]⟩ : RawFrame).content ≠ [] :=
  ⟨text_frame_needs_content.1 [84, 80, 69, 49] [0],
   text_frame_needs_content.2.1 [84, 80, 69, 49, 0, 0, 0, 2, 0, 0, 0, 65, 0, 0, 0, 0]
     ⟨[("TPE1", FrameValue.str "A")],
       [⟨[84, 80, 69, 49], 2, [0, 0], [0, 65]⟩], [], [0, 0, 0, 0]⟩
     (by decide) ⟨[84, 80, 69, 49], 2, [0, 0], [0, 65]⟩ (by decide) (Or.inr rfl)⟩

end ID3
